import Mathlib

set_option autoImplicit false
set_option synthInstance.maxSize 512

/-!
A shallow embedding of `app.py` from the Random-Data-Generator repository.

The program has four parts with real logic, all embedded here:

* `extract_schema_from_json` — turns a parsed JSON metadata document into
  `(table_name, entity_key, schema)`;
* `generate_random_transaction` — synthesizes `count` transaction envelopes
  per table and records the file path of each (filesystem writes are modelled
  by returning the list of written files together with their contents);
* `create_zip_archive` — maps each written file to its archive entry name via
  `os.path.relpath(file, 'data')`;
* the `/generate` route handler, which orchestrates the three and whose
  `try/except` structure is modelled with `Except`.

JSON values are modelled by the inductive `JVal`.  Because Lean cannot derive
decidable equality for an inductive nested through `List`, arrays and objects
are encoded as cons chains inside `JVal` itself: the JSON array `[a, b]` is
`arrCons a (arrCons b arrNil)` and the object is an `objCons` chain.  The
helpers `jarr` and `jobj` build these chains from Lean lists.

Python exceptions are modelled by `PyErr` and `Except`; Python's unseeded
global random generator is modelled by an explicit stream of naturals
(`RNG`), each `random.randint` / `random.choices` draw consuming one stream
element; wall-clock time is a parameter `now`.  One deliberate simplification:
when a Python exception aborts a run mid-generation, the files already written
before the exception are not tracked (no claim inspects them).
-/

/-- A JSON-compatible Python value.  Arrays and objects are cons chains. -/
inductive JVal where
  | null
  | bool (b : Bool)
  | num (n : Int)
  | str (s : String)
  | arrNil
  | arrCons (head tail : JVal)
  | objNil
  | objCons (key : String) (value tail : JVal)
  deriving DecidableEq

/-- Build a JSON array value from a Lean list. -/
def jarr (xs : List JVal) : JVal := xs.foldr .arrCons .arrNil

/-- Build a JSON object value from a Lean association list. -/
def jobj (fs : List (String × JVal)) : JVal :=
  fs.foldr (fun p t => .objCons p.1 p.2 t) .objNil

namespace JVal

/-- `isinstance(x, str)`. -/
def isStr : JVal → Bool
  | .str _ => true
  | _ => false

/-- `isinstance(x, dict)`. -/
def isDict : JVal → Bool
  | .objNil => true
  | .objCons .. => true
  | _ => false

/-- `isinstance(x, list)`. -/
def isList : JVal → Bool
  | .arrNil => true
  | .arrCons .. => true
  | _ => false

/-- Python truthiness of a value (`if x:`). -/
def truthy : JVal → Bool
  | .null => false
  | .bool b => b
  | .num n => n != 0
  | .str s => s != ""
  | .arrNil => false
  | .arrCons .. => true
  | .objNil => false
  | .objCons .. => true

/-- Whether the value may be used as a `dict` key (lists and dicts are
unhashable; using one as a key raises `TypeError`). -/
def hashable : JVal → Bool
  | .arrNil => false
  | .arrCons .. => false
  | .objNil => false
  | .objCons .. => false
  | _ => true

/-- The elements of a JSON array chain, as a Lean list. -/
def toElems : JVal → List JVal
  | .arrCons h t => h :: toElems t
  | _ => []

/-- `str(x)` as used by f-strings.  Only scalar renderings are exercised by
the program's filename construction; container rendering is abbreviated. -/
def pyStr : JVal → String
  | .null => "None"
  | .bool true => "True"
  | .bool false => "False"
  | .num n => toString n
  | .str s => s
  | .arrNil => "[]"
  | .arrCons .. => "[...]"
  | .objNil => "\x7b\x7d"
  | .objCons .. => "\x7b...\x7d"

end JVal

/-- `d.get(key, default)` on a JSON object chain. -/
def dictGet : JVal → String → JVal → JVal
  | .objCons k v t, key, d => if k = key then v else dictGet t key d
  | _, _, d => d

/-- `key in d` on a JSON object chain. -/
def hasKey : JVal → String → Bool
  | .objCons k _ t, key => k = key || hasKey t key
  | _, _ => false

/-- First-match lookup in an association list (Python `dict` keys are unique,
so first match and last match coincide for every map the program builds). -/
def alookup {α β : Type} [DecidableEq α] : List (α × β) → α → Option β
  | [], _ => none
  | (k, v) :: t, key => if k = key then some v else alookup t key

/-- `m[k] = v` on an ordered Python `dict`: an existing key keeps its
position and gets the new value, a new key is appended at the end. -/
def pyInsert {α β : Type} [DecidableEq α] : List (α × β) → α → β → List (α × β)
  | [], k, v => [(k, v)]
  | (k', v') :: t, k, v => if k' = k then (k, v) :: t else (k', v') :: pyInsert t k v

instance {ε α : Type} [DecidableEq ε] [DecidableEq α] : DecidableEq (Except ε α) := fun a b =>
  match a, b with
  | .ok x, .ok y =>
    if h : x = y then .isTrue (by rw [h]) else .isFalse (by simp [h])
  | .error x, .error y =>
    if h : x = y then .isTrue (by rw [h]) else .isFalse (by simp [h])
  | .ok _, .error _ => .isFalse (fun h => Except.noConfusion h)
  | .error _, .ok _ => .isFalse (fun h => Except.noConfusion h)

/-- The Python exceptions the embedded code can raise. -/
inductive PyErr where
  | jsonDecodeError
  | attributeError
  | typeError
  | nameError
  deriving DecidableEq

/-- `str(e)` for the modelled exceptions, as rendered by the generic
`except Exception` branch of the route handler. -/
def PyErr.message : PyErr → String
  | .jsonDecodeError => "Expecting value"
  | .attributeError => "object has no attribute"
  | .typeError => "unhashable type"
  | .nameError => "name 'shutil' is not defined"

/-- `str.upper()` (ASCII), computed on the character list so that proofs can
evaluate it (the built-in `String.toUpper` does not reduce in the kernel). -/
def strUpper (s : String) : String := ⟨s.data.map Char.toUpper⟩

/-- `str.lower()` (ASCII), computed on the character list. -/
def strLower (s : String) : String := ⟨s.data.map Char.toLower⟩

/-- `str.endswith(post)`, computed on the character lists. -/
def strEndsWith (s post : String) : Bool := List.isSuffixOf post.data s.data

/-- The literal `datatype_mapping` dict of `extract_schema_from_json`. -/
def datatype_mapping : List (String × String) :=
  [("STRING", "string"), ("INTEGER", "integer"), ("INT", "integer"),
   ("TIMESTAMP", "timestamp"), ("DATETIME", "timestamp")]

/-- Lines 43-46 of `app.py`: resolve an attribute's generation type.  Python
evaluates both `.upper()` calls before either mapping lookup, so a non-string
`datatype` or `logicalDatatype` raises `AttributeError` even when the other
field would already resolve. -/
def resolveAttrType (attr : JVal) : Except PyErr String :=
  match dictGet attr "datatype" (.str "") with
  | .str d =>
    match dictGet attr "logicalDatatype" (.str "") with
    | .str l =>
      .ok ((alookup datatype_mapping (strUpper d)).getD
            ((alookup datatype_mapping (strUpper l)).getD "string"))
    | _ => .error .attributeError
  | _ => .error .attributeError

/-- `attr.get('name', '')` (lines 41).  Calling `.get` on a non-dict raises,
which `processAttr` checks first. -/
def attrNameOf (a : JVal) : JVal := dictGet a "name" (.str "")

/-- Loop body of lines 39-50: one attribute descriptor added to the field
map.  A non-dict element raises `AttributeError` at `attr.get`. -/
def processAttr (fields : List (JVal × String)) (a : JVal) :
    Except PyErr (List (JVal × String)) :=
  if a.isDict then
    let name := attrNameOf a
    match resolveAttrType a with
    | .error e => .error e
    | .ok ty =>
      if name.truthy then
        if name.hashable then .ok (pyInsert fields name ty)
        else .error .typeError
      else .ok fields
  else .error .attributeError

/-- The `for attr in json_data['attributes']` loop. -/
def processAttrs : List JVal → List (JVal × String) → Except PyErr (List (JVal × String))
  | [], fields => .ok fields
  | a :: rest, fields =>
    match processAttr fields a with
    | .error e => .error e
    | .ok fields' => processAttrs rest fields'

/-- Line 22: `json_data.get('schemaKey', json_data.get('name', 'unknown_table'))`. -/
def tableNameOf (j : JVal) : JVal :=
  dictGet j "schemaKey" (dictGet j "name" (.str "unknown_table"))

/-- Line 23: `json_data.get('entityKey', 'default_entity')`. -/
def entityKeyOf (j : JVal) : JVal := dictGet j "entityKey" (.str "default_entity")

/-- Lines 11-59, `extract_schema_from_json`.  Returns
`(table_name, entity_key, schema)` where the schema is the singleton dict
`{table_name: fields}`.  Raises `AttributeError` when called on a non-dict
and `TypeError` when `table_name` is unhashable (line 26 builds
`{table_name: {}}`). -/
def extract_schema_from_json (j : JVal) :
    Except PyErr (JVal × JVal × List (JVal × List (JVal × String))) :=
  if j.isDict then
    let table_name := tableNameOf j
    let entity_key := entityKeyOf j
    if table_name.hashable then
      let fieldsE :=
        if hasKey j "attributes" && (dictGet j "attributes" .null).isList then
          processAttrs (dictGet j "attributes" .null).toElems []
        else .ok []
      match fieldsE with
      | .error e => .error e
      | .ok fields =>
        let fields := if fields.isEmpty then [(JVal.str "key", "string")] else fields
        .ok (table_name, entity_key, [(table_name, pyInsert fields (.str "operation") "operation")])
    else .error .typeError
  else .error .attributeError

/-! ## Record synthesis (`generate_random_transaction`, lines 61-112) -/

/-- The unseeded global random generator, modelled as a stream of naturals
with a position; each primitive draw consumes one stream element. -/
structure RNG where
  stream : Nat → Nat
  pos : Nat

/-- One draw from the stream. -/
def RNG.next (g : RNG) : Nat × RNG := (g.stream g.pos, ⟨g.stream, g.pos + 1⟩)

/-- `random.randint(lo, hi)` (inclusive bounds). -/
def randint (lo hi : Nat) (g : RNG) : Nat × RNG :=
  let (x, g') := g.next
  (lo + x % (hi - lo + 1), g')

/-- The 52-letter population of line 86. -/
def letterPool : List Char :=
  "abcdefghijklmnopqrstuvwxyzABCDEFGHIJKLMNOPQRSTUVWXYZ".toList

/-- `random.choices(letterPool, k = n)`: `n` independent draws. -/
def randChars : Nat → RNG → List Char × RNG
  | 0, g => ([], g)
  | n + 1, g =>
    let (x, g1) := g.next
    let (cs, g2) := randChars n g1
    (letterPool.getD (x % 52) 'a' :: cs, g2)

/-- The fixed operation descriptor of lines 92-96. -/
def opObj : JVal :=
  jobj [("enumName", .str "Operation"), ("valueName", .str "UPSERT"),
        ("valueOrdinal", .num 1)]

/-- Lines 82-98: generate one field value for record index `i` (0-based).
The `string` and `integer` branches call `attribute_name.lower()`, which
raises `AttributeError` on a non-string field name; the other branches never
inspect the name. -/
def genField (name : JVal) (ty : String) (i now : Nat) (g : RNG) :
    Except PyErr JVal × RNG :=
  if ty = "string" then
    match name with
    | .str n =>
      if ["sys_creation_date", "key", "createdby"].contains (strLower n) then
        let (x, g') := randint 1 100 g
        (.ok (.str ("V" ++ toString x)), g')
      else
        let (cs, g') := randChars 8 g
        (.ok (.str (String.mk cs)), g')
    | _ => (.error .attributeError, g)
  else if ty = "integer" then
    match name with
    | .str n =>
      if strLower n = "customer_id" then (.ok (.str (toString (i + 1))), g)
      else
        let (x, g') := randint 1 100 g
        (.ok (.str (toString x)), g')
    | _ => (.error .attributeError, g)
  else if ty = "timestamp" then (.ok (.num (Int.ofNat now)), g)
  else if ty = "operation" then (.ok opObj, g)
  else (.ok .null, g)

/-- The `for attribute_name, attribute_type in attributes.items()` loop of
lines 81-98, building the record dict.  The dict assignment
`record[attribute_name] = ...` raises `TypeError` on an unhashable name. -/
def genRecordAux : List (JVal × String) → List (JVal × JVal) → Nat → Nat → RNG →
    Except PyErr (List (JVal × JVal)) × RNG
  | [], record, _, _, g => (.ok record, g)
  | (name, ty) :: rest, record, i, now, g =>
    match genField name ty i now g with
    | (.error e, g') => (.error e, g')
    | (.ok v, g') =>
      if name.hashable then genRecordAux rest (pyInsert record name v) i now g'
      else (.error .typeError, g')

/-- A filesystem path: absolute flag plus segments (`os.path.join` of the
program only ever appends single segments). -/
structure FsPath where
  absolute : Bool
  segs : List String
  deriving DecidableEq

/-- The transaction envelope of lines 73-100 wrapping one record. -/
structure Envelope where
  startTransaction : Bool
  transactionId : String
  endTransaction : Bool
  table : String
  record : List (JVal × JVal)
  deriving DecidableEq

/-- One materialized file: its path, the table it belongs to, the 1-based
index used in its filename (`file{i+1}`), and its JSON content. -/
structure FileEntry where
  path : FsPath
  table : String
  fileIndex : Nat
  envelope : Envelope
  deriving DecidableEq

/-- The `for i in range(count)` loop of lines 72-110 for one table, started
at record index `i` with `cnt` records left to produce. -/
def genTableAux (t : String) (attrs : List (JVal × String)) (base : FsPath)
    (sk ek : String) (now : Nat) : Nat → Nat → RNG → Except PyErr (List FileEntry) × RNG
  | _, 0, g => (.ok [], g)
  | i, cnt + 1, g =>
    let (x, g1) := randint 1 100 g
    let tid := "transaction" ++ toString x
    match genRecordAux attrs [] i now g1 with
    | (.error e, g2) => (.error e, g2)
    | (.ok record, g2) =>
      let filename := sk ++ "_" ++ ek ++ "_file" ++ toString (i + 1) ++ ".json"
      let entry : FileEntry :=
        ⟨⟨base.absolute, base.segs ++ [t, filename]⟩, t, i + 1,
         ⟨true, tid, true, t, record⟩⟩
      match genTableAux t attrs base sk ek now (i + 1) cnt g2 with
      | (.error e, g3) => (.error e, g3)
      | (.ok rest, g3) => (.ok (entry :: rest), g3)

/-- Lines 61-112, `generate_random_transaction`: the outer loop over
`schema.items()`.  `os.path.join(base_dir, table_name)` raises `TypeError`
when the table name is not a string. -/
def generate_random_transaction :
    List (JVal × List (JVal × String)) → Nat → FsPath → String → String → Nat → RNG →
    Except PyErr (List FileEntry) × RNG
  | [], _, _, _, _, _, g => (.ok [], g)
  | (tn, attrs) :: rest, count, base, sk, ek, now, g =>
    match tn with
    | .str t =>
      match genTableAux t attrs base sk ek now 0 count g with
      | (.error e, g1) => (.error e, g1)
      | (.ok es, g1) =>
        match generate_random_transaction rest count base sk ek now g1 with
        | (.error e, g2) => (.error e, g2)
        | (.ok es2, g2) => (.ok (es ++ es2), g2)
    | _ => (.error .typeError, g)

/-! ## Archiving (`create_zip_archive`, lines 114-139) -/

/-- Resolve a path against the working directory (`os.path.abspath`). -/
def makeAbs (cwd : List String) (p : FsPath) : List String :=
  if p.absolute then p.segs else cwd ++ p.segs

/-- Longest common leading run of segments of two absolute paths. -/
def commonStem : List String → List String → List String
  | a :: as, b :: bs => if a = b then a :: commonStem as bs else []
  | _, _ => []

/-- `os.path.relpath(p, start)` with working directory `cwd`: both paths made
absolute, then `..` segments up from `start`'s unshared tail followed by
`p`'s unshared tail. -/
def relpath (cwd : List String) (p start : FsPath) : List String :=
  let pa := makeAbs cwd p
  let sa := makeAbs cwd start
  let c := (commonStem pa sa).length
  List.replicate (sa.length - c) ".." ++ pa.drop c

/-- The literal relative path `'data'` hard-coded at line 136. -/
def dataRoot : FsPath := ⟨false, ["data"]⟩

/-- Lines 133-137: each file is stored under the archive entry name
`os.path.relpath(file, 'data')`.  The archive is modelled as the list of
(entry name, entry content) pairs. -/
def create_zip_archive (files : List FileEntry) (cwd : List String) :
    List (List String × Envelope) :=
  files.map (fun f => (relpath cwd f.path dataRoot, f.envelope))

/-! ## The `/generate` route handler (lines 141-223) -/

/-- The module-level imports of `app.py` (lines 1-7).  `shutil` is absent. -/
def imported_modules : List String :=
  ["os", "json", "random", "time", "zipfile", "traceback", "flask"]

/-- A JSON response from the handler. -/
inductive Response where
  | errorJson (msg : String)
  | success (message downloadLink : String)
  deriving DecidableEq

/-- The uploaded schema file: its name, the parse results of the `.json`
members found when it is expanded as a zip (in `os.walk` order), and the
parse result of the file itself read as JSON.  `Except.error ()` models a
`json.JSONDecodeError` from `json.load`. -/
structure SchemaUpload where
  filename : String
  zipDocs : List (Except Unit JVal)
  singleDoc : Except Unit JVal

/-- What one request leaves behind: the HTTP response, the files written
under the output root, and the archive when line 209 was reached. -/
structure HandlerResult where
  response : Response
  files : List FileEntry
  archive : Option (List (List String × Envelope))
  deriving DecidableEq

/-- Line 156: `output_dir = '/tmp/data'`. -/
def output_dir : FsPath := ⟨true, ["tmp", "data"]⟩

/-- Lines 175-192: process one contained document — parse, extract, fetch
`schemaKey` with default `'unknown_schema'` (line 180), generate. -/
def processZipDoc (count now : Nat) (d : Except Unit JVal) (g : RNG) :
    Except PyErr (List FileEntry) × RNG :=
  match d with
  | .error _ => (.error .jsonDecodeError, g)
  | .ok j =>
    match extract_schema_from_json j with
    | .error e => (.error e, g)
    | .ok (_, ek, schema) =>
      let sk := dictGet j "schemaKey" (.str "unknown_schema")
      generate_random_transaction schema count output_dir sk.pyStr ek.pyStr now g

/-- The `os.walk` loop of lines 170-192: each document is processed inside
its own `try/except`, so a failing document is skipped and the fold goes on
with the siblings. -/
def zipFold (count now : Nat) : List (Except Unit JVal) → List FileEntry → RNG →
    List FileEntry × RNG
  | [], acc, g => (acc, g)
  | d :: rest, acc, g =>
    match processZipDoc count now d g with
    | (.ok fs, g') => zipFold count now rest (acc ++ fs) g'
    | (.error _, g') => zipFold count now rest acc g'

/-- The body of the outer `try` up to line 207: branch on the `.zip` suffix,
collect `all_generated_files`. -/
def tryBody (f : SchemaUpload) (count now : Nat) (g : RNG) :
    Except PyErr (List FileEntry) × RNG :=
  if strEndsWith (strLower f.filename) ".zip" then
    let (fs, g') := zipFold count now f.zipDocs [] g
    (.ok fs, g')
  else
    match f.singleDoc with
    | .error _ => (.error .jsonDecodeError, g)
    | .ok j =>
      match extract_schema_from_json j with
      | .error e => (.error e, g)
      | .ok (_, ek, schema) =>
        let sk := dictGet j "schemaKey" (.str "unknown_schema")
        generate_random_transaction schema count output_dir sk.pyStr ek.pyStr now g

/-- Lines 141-223, the `/generate` handler.  After a successful
`create_zip_archive`, line 211 evaluates the name `shutil`; it is not among
the imports, so a `NameError` is raised and lands in the generic
`except Exception` branch.  `count` is taken already parsed (the upload and
form plumbing is boundary I/O).  The result is `Except.ok` whenever no
exception escapes to the WSGI layer. -/
def generateHandler (upload : Option SchemaUpload) (count now : Nat)
    (cwd : List String) (g : RNG) : Except PyErr HandlerResult :=
  match upload with
  | none => .ok ⟨.errorJson "No file uploaded", [], none⟩
  | some f =>
    if f.filename = "" then .ok ⟨.errorJson "No selected file", [], none⟩
    else
      match tryBody f count now g with
      | (.ok allFiles, _) =>
        let archive := create_zip_archive allFiles cwd
        if imported_modules.contains "shutil" then
          .ok ⟨.success ("Generated " ++ toString allFiles.length ++ " files")
                 "/download/generated_data.zip", allFiles, some archive⟩
        else
          .ok ⟨.errorJson PyErr.nameError.message, allFiles, some archive⟩
      | (.error .jsonDecodeError, _) =>
        .ok ⟨.errorJson "Invalid JSON format in schema file.", [], none⟩
      | (.error e, _) => .ok ⟨.errorJson e.message, [], none⟩

/-- Whether a request's control flow reaches the `create_zip_archive` call
at line 209 (upload present, filename non-empty, `try` body succeeds). -/
def reachesArchive (upload : Option SchemaUpload) (count now : Nat) (g : RNG) : Bool :=
  match upload with
  | none => false
  | some f =>
    (f.filename != "") &&
    (match (tryBody f count now g).1 with
     | .ok _ => true
     | .error _ => false)

/-! ## Measuring definitions used to state the claims -/

/-- The non-empty (truthy) attribute names of an attribute list, in source
order with multiplicity. -/
def usableNames (attrs : List JVal) : List JVal :=
  attrs.filterMap (fun a => if (attrNameOf a).truthy then some (attrNameOf a) else none)

/-- The names of `l` not yet in `seen`, first occurrences only, in order. -/
def newKeys : List JVal → List JVal → List JVal
  | [], _ => []
  | n :: rest, seen => if n ∈ seen then newKeys rest seen else n :: newKeys rest (seen ++ [n])

/-- First-occurrence deduplication. -/
def dedupFO (l : List JVal) : List JVal := newKeys l []

/-- A well-formed attribute descriptor in the sense of the spec's data
model: a mapping whose `name`, `datatype` and `logicalDatatype` values are
strings when present. -/
def wfAttr (a : JVal) : Bool :=
  a.isDict && (dictGet a "datatype" (.str "")).isStr &&
  (dictGet a "logicalDatatype" (.str "")).isStr && (attrNameOf a).isStr

/-- A field map whose field names are all strings (true of every field map
the spec's data model describes). -/
def wfFieldMap (attrs : List (JVal × String)) : Bool := attrs.all (fun p => p.1.isStr)

/-- A schema whose table names and field names are strings. -/
def wfSchema (schema : List (JVal × List (JVal × String))) : Bool :=
  schema.all (fun p => p.1.isStr && wfFieldMap p.2)

/-- A document with zero usable attributes: no `attributes` key, a non-list
`attributes` value, or only well-formed descriptors with falsy names. -/
def unusableAttrs (j : JVal) : Bool :=
  if hasKey j "attributes" && (dictGet j "attributes" .null).isList then
    (dictGet j "attributes" .null).toElems.all (fun a => wfAttr a && !(attrNameOf a).truthy)
  else true

/-- A document on which extraction is expected to succeed: a mapping with a
hashable table name whose attribute descriptors (when `attributes` is a
list) are all well-formed. -/
def wfDoc (j : JVal) : Bool :=
  j.isDict && (tableNameOf j).hashable &&
  (if hasKey j "attributes" && (dictGet j "attributes" .null).isList then
    (dictGet j "attributes" .null).toElems.all wfAttr
  else true)

/-! ## Basic lemmas about the Python-dict model -/

theorem alookup_pyInsert_self {α β : Type} [DecidableEq α] (m : List (α × β)) (k : α) (v : β) :
    alookup (pyInsert m k v) k = some v := by
  induction m with
  | nil => simp [pyInsert, alookup]
  | cons p t ih =>
    obtain ⟨k', v'⟩ := p
    by_cases h : k' = k <;> simp [pyInsert, alookup, h, ih]

theorem alookup_pyInsert_ne {α β : Type} [DecidableEq α] (m : List (α × β)) (k k' : α)
    (v : β) (h : k' ≠ k) : alookup (pyInsert m k' v) k = alookup m k := by
  induction m with
  | nil => simp [pyInsert, alookup, h]
  | cons p t ih =>
    obtain ⟨k₀, v₀⟩ := p
    by_cases h0 : k₀ = k'
    · subst h0; simp [pyInsert, alookup, h]
    · simp [pyInsert, alookup, h0]
      by_cases h1 : k₀ = k <;> simp [alookup, h1, ih]

theorem keys_pyInsert_mem {α β : Type} [DecidableEq α] (m : List (α × β)) (k : α) (v : β)
    (h : k ∈ m.map Prod.fst) : (pyInsert m k v).map Prod.fst = m.map Prod.fst := by
  induction m with
  | nil => simp at h
  | cons p t ih =>
    obtain ⟨k', v'⟩ := p
    by_cases h0 : k' = k
    · simp [pyInsert, h0]
    · rcases List.mem_cons.mp h with h1 | h1
      · exact absurd h1.symm h0
      · simp [pyInsert, h0, ih h1]

theorem keys_pyInsert_not_mem {α β : Type} [DecidableEq α] (m : List (α × β)) (k : α) (v : β)
    (h : k ∉ m.map Prod.fst) : (pyInsert m k v).map Prod.fst = m.map Prod.fst ++ [k] := by
  induction m with
  | nil => simp [pyInsert]
  | cons p t ih =>
    obtain ⟨k', v'⟩ := p
    have h1 : k' ≠ k := fun hc => h (by simp [hc])
    have h2 : k ∉ t.map Prod.fst := fun hc => h (by simp [hc])
    simp [pyInsert, h1, ih h2]

theorem dictGet_irrel (j : JVal) (k : String) (h : hasKey j k = true) (d d' : JVal) :
    dictGet j k d = dictGet j k d' := by
  induction j with
  | objCons k' v t ihv iht =>
    by_cases h0 : k' = k
    · simp [dictGet, h0]
    · simp [hasKey, h0] at h
      simp [dictGet, h0, iht h]
  | _ => simp_all [hasKey]

theorem dictGet_default (j : JVal) (k : String) (h : hasKey j k = false) (d : JVal) :
    dictGet j k d = d := by
  induction j with
  | objCons k' v t ihv iht =>
    simp [hasKey] at h
    simp [dictGet, h.1, iht h.2]
  | _ => simp [dictGet]

theorem isStr_exists {v : JVal} (h : v.isStr = true) : ∃ s, v = .str s := by
  cases v <;> simp_all [JVal.isStr]

/-! ## Lemmas about `relpath` -/

theorem commonStem_nil_right (l : List String) : commonStem l [] = [] := by
  cases l <;> rfl

theorem commonStem_append (l t : List String) : commonStem (l ++ t) l = l := by
  induction l with
  | nil => simpa using commonStem_nil_right t
  | cons a as ih => simp [commonStem, ih]

theorem relpath_data_strip (cwd rest : List String) :
    relpath cwd ⟨false, "data" :: rest⟩ dataRoot = rest := by
  have h1 : cwd ++ "data" :: rest = (cwd ++ ["data"]) ++ rest := by simp
  simp only [relpath, makeAbs, dataRoot]
  rw [if_neg (by simp), if_neg (by simp), h1, commonStem_append]
  simp

/-! ## Lemmas about schema extraction -/

theorem wfAttr_parts {a : JVal} (h : wfAttr a = true) :
    a.isDict = true ∧ (dictGet a "datatype" (.str "")).isStr = true ∧
    (dictGet a "logicalDatatype" (.str "")).isStr = true ∧ (attrNameOf a).isStr = true := by
  simpa [wfAttr, Bool.and_eq_true, and_assoc] using h

theorem wfAttr_resolve {a : JVal} (h : wfAttr a = true) :
    ∃ ty, resolveAttrType a = .ok ty := by
  obtain ⟨-, h1, h2, -⟩ := wfAttr_parts h
  obtain ⟨d, hd⟩ := isStr_exists h1
  obtain ⟨l, hl⟩ := isStr_exists h2
  exact ⟨(alookup datatype_mapping (strUpper d)).getD ((alookup datatype_mapping (strUpper l)).getD "string"),
    by simp [resolveAttrType, hd, hl]⟩

theorem processAttr_wf_truthy {a : JVal} (fields : List (JVal × String))
    (h : wfAttr a = true) (ht : (attrNameOf a).truthy = true) :
    ∃ ty, resolveAttrType a = .ok ty ∧
      processAttr fields a = .ok (pyInsert fields (attrNameOf a) ty) := by
  obtain ⟨hdict, -, -, hname⟩ := wfAttr_parts h
  obtain ⟨ty, hres⟩ := wfAttr_resolve h
  obtain ⟨s, hs⟩ := isStr_exists hname
  refine ⟨ty, hres, ?_⟩
  have hh : (attrNameOf a).hashable = true := by rw [hs]; rfl
  simp [processAttr, hdict, hres, ht, hh]

theorem processAttr_wf_falsy {a : JVal} (fields : List (JVal × String))
    (h : wfAttr a = true) (ht : (attrNameOf a).truthy = false) :
    processAttr fields a = .ok fields := by
  obtain ⟨hdict, -, -, -⟩ := wfAttr_parts h
  obtain ⟨ty, hres⟩ := wfAttr_resolve h
  simp [processAttr, hdict, hres, ht]

theorem usableNames_cons_truthy {a : JVal} (rest : List JVal)
    (ht : (attrNameOf a).truthy = true) :
    usableNames (a :: rest) = attrNameOf a :: usableNames rest := by
  simp [usableNames, ht]

theorem usableNames_cons_falsy {a : JVal} (rest : List JVal)
    (ht : (attrNameOf a).truthy = false) :
    usableNames (a :: rest) = usableNames rest := by
  simp [usableNames, ht]

theorem processAttrs_keys (l : List JVal) : ∀ fields : List (JVal × String),
    (∀ a ∈ l, wfAttr a = true) →
    ∃ f', processAttrs l fields = .ok f' ∧
      f'.map Prod.fst = fields.map Prod.fst ++ newKeys (usableNames l) (fields.map Prod.fst) := by
  induction l with
  | nil =>
    intro fields _
    exact ⟨fields, rfl, by simp [usableNames, newKeys]⟩
  | cons a rest ih =>
    intro fields h
    have ha := h a (List.mem_cons_self a rest)
    have hrest : ∀ b ∈ rest, wfAttr b = true := fun b hb => h b (List.mem_cons_of_mem _ hb)
    by_cases ht : (attrNameOf a).truthy = true
    · obtain ⟨ty, -, hp⟩ := processAttr_wf_truthy fields ha ht
      obtain ⟨f', hf', hkeys⟩ := ih (pyInsert fields (attrNameOf a) ty) hrest
      refine ⟨f', by simp [processAttrs, hp, hf'], ?_⟩
      rw [hkeys, usableNames_cons_truthy rest ht]
      by_cases hmem : attrNameOf a ∈ fields.map Prod.fst
      · rw [keys_pyInsert_mem _ _ _ hmem]
        simp [newKeys, hmem]
      · rw [keys_pyInsert_not_mem _ _ _ hmem]
        simp [newKeys, hmem]
    · have ht' : (attrNameOf a).truthy = false := by
        revert ht; cases (attrNameOf a).truthy <;> simp
      obtain ⟨f', hf', hkeys⟩ := ih fields hrest
      refine ⟨f', by simp [processAttrs, processAttr_wf_falsy fields ha ht', hf'], ?_⟩
      rw [hkeys, usableNames_cons_falsy rest ht']

theorem mem_of_mem_newKeys {x : JVal} (l : List JVal) : ∀ seen : List JVal,
    x ∈ newKeys l seen → x ∈ l := by
  induction l with
  | nil => intro seen h; simp [newKeys] at h
  | cons n rest ih =>
    intro seen h
    by_cases hm : n ∈ seen
    · simp only [newKeys, if_pos hm] at h
      exact List.mem_cons_of_mem _ (ih _ h)
    · simp only [newKeys, if_neg hm] at h
      rcases List.mem_cons.mp h with h1 | h1
      · exact h1 ▸ List.mem_cons_self n rest
      · exact List.mem_cons_of_mem _ (ih _ h1)

theorem usableNames_falsy (l : List JVal)
    (h : ∀ a ∈ l, (attrNameOf a).truthy = false) : usableNames l = [] := by
  induction l with
  | nil => rfl
  | cons a rest ih =>
    rw [usableNames_cons_falsy rest (h a (List.mem_cons_self a rest))]
    exact ih fun b hb => h b (List.mem_cons_of_mem _ hb)

/-! ## Lemmas about record synthesis -/

theorem genField_str_ok (s ty : String) (i now : Nat) (g : RNG) :
    ∃ v g', genField (.str s) ty i now g = (.ok v, g') := by
  unfold genField
  repeat' split
  all_goals exact ⟨_, _, rfl⟩

theorem genField_customer (s : String) (i now : Nat) (g : RNG)
    (h : strLower s = "customer_id") :
    genField (.str s) "integer" i now g = (.ok (.str (toString (i + 1))), g) := by
  simp [genField, h]

theorem genRecordAux_wf (attrs : List (JVal × String)) : ∀ (record : List (JVal × JVal))
    (i now : Nat) (g : RNG), wfFieldMap attrs = true →
    ∃ rec g', genRecordAux attrs record i now g = (.ok rec, g') ∧
      ∀ x, x ∉ attrs.map Prod.fst → alookup rec x = alookup record x := by
  induction attrs with
  | nil => intro record i now g _; exact ⟨record, g, rfl, fun x _ => rfl⟩
  | cons p rest ih =>
    obtain ⟨name, ty⟩ := p
    intro record i now g hwf
    rw [wfFieldMap, List.all_cons, Bool.and_eq_true] at hwf
    obtain ⟨s, hs⟩ := isStr_exists hwf.1
    subst hs
    obtain ⟨v, g1, hv⟩ := genField_str_ok s ty i now g
    obtain ⟨rec, g', hrec, hskip⟩ := ih (pyInsert record (.str s) v) i now g1 hwf.2
    refine ⟨rec, g', ?_, ?_⟩
    · simpa [genRecordAux, hv, JVal.hashable] using hrec
    · intro x hx
      have hx1 : x ≠ .str s := fun hc => hx (by simp [hc])
      have hx2 : x ∉ rest.map Prod.fst := fun hc => hx (by simp [hc])
      rw [hskip x hx2, alookup_pyInsert_ne _ _ _ _ (Ne.symm hx1)]

theorem genRecordAux_customer (attrs : List (JVal × String)) :
    ∀ (record : List (JVal × JVal)) (i now : Nat) (g : RNG) (name : String),
    wfFieldMap attrs = true → (attrs.map Prod.fst).Nodup →
    (JVal.str name, "integer") ∈ attrs → strLower name = "customer_id" →
    ∃ rec g', genRecordAux attrs record i now g = (.ok rec, g') ∧
      alookup rec (.str name) = some (.str (toString (i + 1))) := by
  induction attrs with
  | nil => intro _ _ _ _ _ _ _ hmem _; simp at hmem
  | cons p rest ih =>
    obtain ⟨pname, pty⟩ := p
    intro record i now g name hwf hnd hmem hlow
    rw [wfFieldMap, List.all_cons, Bool.and_eq_true] at hwf
    rw [List.map_cons, List.nodup_cons] at hnd
    rcases List.mem_cons.mp hmem with heq | hmem'
    · obtain ⟨h1, h2⟩ := Prod.mk.injEq .. ▸ heq
      subst h1; subst h2
      have hnot : JVal.str name ∉ rest.map Prod.fst := hnd.1
      obtain ⟨rec, g', hrec, hskip⟩ :=
        genRecordAux_wf rest (pyInsert record (.str name) (.str (toString (i + 1)))) i now g hwf.2
      refine ⟨rec, g', ?_, ?_⟩
      · simpa [genRecordAux, genField_customer name i now g hlow, JVal.hashable] using hrec
      · rw [hskip _ hnot, alookup_pyInsert_self]
    · obtain ⟨s, hs⟩ := isStr_exists hwf.1
      subst hs
      obtain ⟨v, g1, hv⟩ := genField_str_ok s pty i now g
      obtain ⟨rec, g', hrec, hlook⟩ :=
        ih (pyInsert record (.str s) v) i now g1 name hwf.2 hnd.2 hmem' hlow
      exact ⟨rec, g', by simpa [genRecordAux, hv, JVal.hashable] using hrec, hlook⟩

theorem genTableAux_spec (t : String) (attrs : List (JVal × String)) (base : FsPath)
    (sk ek : String) (now : Nat) (hwf : wfFieldMap attrs = true) :
    ∀ (cnt start : Nat) (g : RNG), ∃ es g',
      genTableAux t attrs base sk ek now start cnt g = (.ok es, g') ∧
      es.length = cnt ∧
      es.map FileEntry.fileIndex = (List.range cnt).map (fun k => start + k + 1) ∧
      (∀ e ∈ es, e.table = t) ∧
      (∀ name : String, (attrs.map Prod.fst).Nodup → (JVal.str name, "integer") ∈ attrs →
        strLower name = "customer_id" →
        es.map (fun e => alookup e.envelope.record (.str name)) =
          (List.range cnt).map (fun k => some (.str (toString (start + k + 1))))) := by
  intro cnt
  induction cnt with
  | zero =>
    intro start g
    exact ⟨[], g, rfl, rfl, by simp, by simp, fun _ _ _ _ => by simp⟩
  | succ c ihc =>
    intro start g
    rcases hx : randint 1 100 g with ⟨x, g1⟩
    obtain ⟨rec, g2, hrec, -⟩ := genRecordAux_wf attrs [] start now g1 hwf
    obtain ⟨es, g', hes, hlen, hidx, htab, hcust⟩ := ihc (start + 1) g2
    refine ⟨⟨⟨base.absolute, base.segs ++ [t, sk ++ "_" ++ ek ++ "_file" ++ toString (start + 1) ++ ".json"]⟩,
             t, start + 1, ⟨true, "transaction" ++ toString x, true, t, rec⟩⟩ :: es, g', ?_, ?_, ?_, ?_, ?_⟩
    · simp [genTableAux, hx, hrec, hes]
    · simp [hlen]
    · rw [List.map_cons, List.range_succ_eq_map, List.map_cons, hidx, List.map_map]
      refine congrArg₂ _ rfl (List.map_congr_left fun k _ => ?_)
      simp
      omega
    · intro e he
      rcases List.mem_cons.mp he with h1 | h1
      · rw [h1]
      · exact htab e h1
    · intro name hnd hmem hlow
      obtain ⟨rec', g2', hrec', hlook⟩ := genRecordAux_customer attrs [] start now g1 name hwf hnd hmem hlow
      rw [hrec'] at hrec
      obtain ⟨hr1, -⟩ := Prod.mk.injEq .. ▸ hrec
      have hr2 : rec' = rec := by
        have := Except.ok.inj hr1
        exact this
      rw [List.map_cons, List.range_succ_eq_map, List.map_cons, hcust name hnd hmem hlow, List.map_map]
      rw [← hr2]
      refine congrArg₂ _ (by rw [hlook]) (List.map_congr_left fun k _ => ?_)
      simp
      congr 1
      omega

theorem generate_spec (schema : List (JVal × List (JVal × String))) :
    ∀ (count : Nat) (base : FsPath) (sk ek : String) (now : Nat) (g : RNG),
    wfSchema schema = true →
    ∃ es g', generate_random_transaction schema count base sk ek now g = (.ok es, g') ∧
      (∀ e ∈ es, JVal.str e.table ∈ schema.map Prod.fst) ∧
      (∀ (t : String) (attrs : List (JVal × String)),
        (schema.map Prod.fst).Nodup → (JVal.str t, attrs) ∈ schema →
        ((es.filter fun e => e.table = t).map FileEntry.fileIndex
            = (List.range count).map (· + 1) ∧
         ∀ name : String, (attrs.map Prod.fst).Nodup → (JVal.str name, "integer") ∈ attrs →
           strLower name = "customer_id" →
           (es.filter fun e => e.table = t).map (fun e => alookup e.envelope.record (.str name))
             = (List.range count).map (fun k => some (.str (toString (k + 1)))))) := by
  induction schema with
  | nil =>
    intro count base sk ek now g _
    refine ⟨[], g, rfl, by simp, ?_⟩
    intro t attrs _ hmem
    simp at hmem
  | cons p rest ih =>
    obtain ⟨tn, pattrs⟩ := p
    intro count base sk ek now g hwf
    rw [wfSchema, List.all_cons, Bool.and_eq_true] at hwf
    obtain ⟨hwfhead, hwfrest⟩ := hwf
    rw [Bool.and_eq_true] at hwfhead
    obtain ⟨t0, ht0⟩ := isStr_exists hwfhead.1
    subst ht0
    obtain ⟨es0, g1, hes0, hlen0, hidx0, htab0, hcust0⟩ :=
      genTableAux_spec t0 pattrs base sk ek now hwfhead.2 count 0 g
    obtain ⟨es1, g2, hes1, hmemtab, hper⟩ := ih count base sk ek now g1 hwfrest
    refine ⟨es0 ++ es1, g2, ?_, ?_, ?_⟩
    · simp [generate_random_transaction, hes0, hes1]
    · intro e he
      rcases List.mem_append.mp he with h1 | h1
      · simp [htab0 e h1]
      · exact List.mem_cons_of_mem _ (hmemtab e h1)
    · intro t attrs hnd hmem
      rw [List.map_cons, List.nodup_cons] at hnd
      rcases List.mem_cons.mp hmem with heq | hmem'
      · obtain ⟨h1, h2⟩ := Prod.mk.injEq .. ▸ heq
        have ht : t = t0 := JVal.str.inj h1
        subst ht
        subst h2
        have hfes0 : es0.filter (fun e => e.table = t) = es0 :=
          List.filter_eq_self.mpr fun e he => by simp [htab0 e he]
        have hfes1 : es1.filter (fun e => e.table = t) = [] := by
          rw [List.filter_eq_nil_iff]
          intro e he
          simp only [decide_eq_true_eq]
          intro hc
          exact hnd.1 (hc ▸ hmemtab e he)
        constructor
        · rw [List.filter_append, hfes0, hfes1, List.append_nil, hidx0]
          exact List.map_congr_left fun k _ => by omega
        · intro name hnda hmema hlow
          rw [List.filter_append, hfes0, hfes1, List.append_nil,
            hcust0 name hnda hmema hlow]
          exact List.map_congr_left fun k _ => by simp
      · have hne : t0 ≠ t := by
          intro hc
          refine hnd.1 ?_
          rw [hc]
          exact List.mem_map.mpr ⟨(JVal.str t, attrs), hmem', rfl⟩
        have hfes0 : es0.filter (fun e => e.table = t) = [] := by
          rw [List.filter_eq_nil_iff]
          intro e he
          simp only [decide_eq_true_eq]
          rw [htab0 e he]
          exact hne
        obtain ⟨hidx1, hcust1⟩ := hper t attrs hnd.2 hmem'
        rw [List.filter_append, hfes0, List.nil_append]
        exact ⟨hidx1, hcust1⟩

/-! ## Lemmas about the route handler -/

theorem shutil_not_imported : imported_modules.contains "shutil" = false := by decide

theorem zipFold_skip_error (count now : Nat) (pre : List (Except Unit JVal)) :
    ∀ (post : List (Except Unit JVal)) (acc : List FileEntry) (g : RNG),
    zipFold count now (pre ++ Except.error () :: post) acc g
      = zipFold count now (pre ++ post) acc g := by
  induction pre with
  | nil => intro post acc g; rfl
  | cons d pre ih =>
    intro post acc g
    simp only [List.cons_append, zipFold]
    rcases hp : processZipDoc count now d g with ⟨r, g'⟩
    cases r with
    | ok fs => simp [hp, ih]
    | error e => simp [hp, ih]

theorem tryBody_zip (f : SchemaUpload) (count now : Nat) (g : RNG)
    (hz : strEndsWith (strLower f.filename) ".zip" = true) :
    tryBody f count now g = (.ok (zipFold count now f.zipDocs [] g).1,
      (zipFold count now f.zipDocs [] g).2) := by
  rcases hzf : zipFold count now f.zipDocs [] g with ⟨fs, g'⟩
  simp only [tryBody, hz, if_true, hzf]

theorem generateHandler_zip (fname : String) (docs : List (Except Unit JVal))
    (single : Except Unit JVal) (count now : Nat) (cwd : List String) (g : RNG)
    (hz : strEndsWith (strLower fname) ".zip" = true) (hne : fname ≠ "") :
    generateHandler (some ⟨fname, docs, single⟩) count now cwd g =
      .ok ⟨.errorJson "name 'shutil' is not defined",
           (zipFold count now docs [] g).1,
           some (create_zip_archive (zipFold count now docs [] g).1 cwd)⟩ := by
  have ht := tryBody_zip ⟨fname, docs, single⟩ count now g hz
  rcases hzf : zipFold count now docs [] g with ⟨fs, g'⟩
  rw [hzf] at ht
  simp only [generateHandler, if_neg hne, ht, shutil_not_imported,
    Bool.false_eq_true, if_false, PyErr.message]

/-! ## The claims -/

/-- C1: for every attribute descriptor with a non-empty (truthy) name, the
resolved field type is obtained by looking up `datatype` (case-insensitively,
via `.upper()`) in the fixed mapping `{STRING→string, INTEGER→integer,
INT→integer, TIMESTAMP→timestamp, DATETIME→timestamp}`; when `datatype` is
absent the lookup key is the empty string, so it is unmapped and the lookup
is repeated on `logicalDatatype`; if still unresolved the type defaults to
`"string"`.  The descriptor's field enters the field map with exactly that
type. -/
theorem C1_type_resolution (attr : JVal) (d l : String) (fields : List (JVal × String))
    (hd : dictGet attr "datatype" (.str "") = .str d)
    (hl : dictGet attr "logicalDatatype" (.str "") = .str l)
    (hdict : attr.isDict = true)
    (ht : (attrNameOf attr).truthy = true)
    (hh : (attrNameOf attr).hashable = true) :
    resolveAttrType attr =
      .ok ((alookup datatype_mapping (strUpper d)).getD
        ((alookup datatype_mapping (strUpper l)).getD "string"))
    ∧ processAttr fields attr =
        .ok (pyInsert fields (attrNameOf attr)
          ((alookup datatype_mapping (strUpper d)).getD
            ((alookup datatype_mapping (strUpper l)).getD "string")))
    ∧ datatype_mapping = [("STRING", "string"), ("INTEGER", "integer"), ("INT", "integer"),
        ("TIMESTAMP", "timestamp"), ("DATETIME", "timestamp")] := by
  have h1 : resolveAttrType attr =
      .ok ((alookup datatype_mapping (strUpper d)).getD
        ((alookup datatype_mapping (strUpper l)).getD "string")) := by
    simp [resolveAttrType, hd, hl]
  exact ⟨h1, by simp [processAttr, hdict, h1, ht, hh], rfl⟩

theorem C1_type_resolution_witness :
    dictGet (jobj [("name", .str "a"), ("datatype", .str "int")]) "datatype" (.str "")
        = .str "int"
    ∧ resolveAttrType (jobj [("name", .str "a"), ("datatype", .str "int")])
        = .ok ((alookup datatype_mapping (strUpper "int")).getD
            ((alookup datatype_mapping (strUpper "")).getD "string"))
    ∧ (alookup datatype_mapping (strUpper "int")).getD
        ((alookup datatype_mapping (strUpper "")).getD "string") = "integer" :=
  ⟨by decide,
   (C1_type_resolution (jobj [("name", .str "a"), ("datatype", .str "int")]) "int" "" []
     (by decide) (by decide) (by decide) (by decide) (by decide)).1,
   by decide⟩

/-- C5 is false as stated: for the document `{"schemaKey": "", "name": "foo"}`
the `schemaKey` key is present but empty, and the code
(`json_data.get('schemaKey', json_data.get('name', ...))`) still uses its
value `""` as the table name instead of falling back to `name` = `"foo"` as
the claim requires. -/
theorem C5_counterexample :
    tableNameOf (jobj [("schemaKey", .str ""), ("name", .str "foo")]) = .str ""
    ∧ JVal.str "" ≠ .str "foo"
    ∧ (extract_schema_from_json (jobj [("schemaKey", .str ""), ("name", .str "foo")])).map
        (fun r => r.1) = .ok (.str "") := by
  exact ⟨rfl, by decide, rfl⟩

/-- C5 (amended): the extracted `tableName` equals the value of
`doc.schemaKey` whenever that key is present — even when its value is empty
or otherwise falsy — else the value of `doc.name` when present, else the
literal `"unknown_table"`; the extracted `entityKey` equals the value of
`doc.entityKey` when present, else the literal `"default_entity"`; and a
successful extraction returns exactly this pair. -/
theorem C5_extracted_identifiers (j : JVal) :
    (tableNameOf j = if hasKey j "schemaKey" then dictGet j "schemaKey" .null
      else if hasKey j "name" then dictGet j "name" .null else .str "unknown_table")
    ∧ (entityKeyOf j = if hasKey j "entityKey" then dictGet j "entityKey" .null
        else .str "default_entity")
    ∧ ∀ tn ek sch, extract_schema_from_json j = .ok (tn, ek, sch) →
        tn = tableNameOf j ∧ ek = entityKeyOf j := by
  refine ⟨?_, ?_, ?_⟩
  · by_cases h1 : hasKey j "schemaKey" = true
    · rw [if_pos h1, tableNameOf, dictGet_irrel j _ h1]
    · have h1' : hasKey j "schemaKey" = false := by
        revert h1; cases hasKey j "schemaKey" <;> simp
      rw [if_neg (by simp [h1']), tableNameOf, dictGet_default j _ h1']
      by_cases h2 : hasKey j "name" = true
      · rw [if_pos h2, dictGet_irrel j _ h2]
      · have h2' : hasKey j "name" = false := by
          revert h2; cases hasKey j "name" <;> simp
        rw [if_neg (by simp [h2']), dictGet_default j _ h2']
  · by_cases h1 : hasKey j "entityKey" = true
    · rw [if_pos h1, entityKeyOf, dictGet_irrel j _ h1]
    · have h1' : hasKey j "entityKey" = false := by
        revert h1; cases hasKey j "entityKey" <;> simp
      rw [if_neg (by simp [h1']), entityKeyOf, dictGet_default j _ h1']
  · intro tn ek sch h
    simp only [extract_schema_from_json] at h
    split at h
    · split at h
      · split at h
        · exact absurd h (by simp)
        · rw [Except.ok.injEq] at h
          rw [Prod.mk.injEq, Prod.mk.injEq] at h
          exact ⟨h.1.symm, h.2.1.symm⟩
      · exact absurd h (by simp)
    · exact absurd h (by simp)

theorem C5_extracted_identifiers_witness :
    JVal.str "unknown_table" = tableNameOf (jobj [("entityKey", .str "E")])
    ∧ JVal.str "E" = entityKeyOf (jobj [("entityKey", .str "E")]) :=
  (C5_extracted_identifiers (jobj [("entityKey", .str "E")])).2.2
    (.str "unknown_table") (.str "E")
    [(.str "unknown_table", [(.str "key", "string"), (.str "operation", "operation")])]
    (by decide)

/-- C7: for every metadata document with zero usable attributes — no
`attributes` key, a non-list `attributes` value, or only descriptors with
empty (falsy) names — the extracted field map is exactly
`{key: string, operation: operation}`. -/
theorem C7_default_schema (j : JVal) (hdict : j.isDict = true)
    (hu : unusableAttrs j = true) (hh : (tableNameOf j).hashable = true) :
    extract_schema_from_json j = .ok (tableNameOf j, entityKeyOf j,
      [(tableNameOf j, [(.str "key", "string"), (.str "operation", "operation")])]) := by
  have hfe : (if hasKey j "attributes" && (dictGet j "attributes" .null).isList
      then processAttrs (dictGet j "attributes" .null).toElems []
      else .ok []) = Except.ok ([] : List (JVal × String)) := by
    by_cases hc : (hasKey j "attributes" && (dictGet j "attributes" .null).isList) = true
    · rw [if_pos hc]
      rw [unusableAttrs, if_pos hc] at hu
      have hall := List.all_eq_true.mp hu
      obtain ⟨f', hf', hkeys⟩ := processAttrs_keys _ []
        (fun a ha => by have h1 := hall a ha; rw [Bool.and_eq_true] at h1; exact h1.1)
      have hfal : ∀ a ∈ (dictGet j "attributes" .null).toElems,
          (attrNameOf a).truthy = false := by
        intro a ha
        have h2 := hall a ha
        rw [Bool.and_eq_true] at h2
        simpa using h2.2
      rw [usableNames_falsy _ hfal] at hkeys
      simp only [newKeys, List.map_nil, List.nil_append] at hkeys
      rw [hf', List.map_eq_nil_iff.mp hkeys]
    · rw [if_neg hc]
  simp only [extract_schema_from_json, hdict, hh, if_true, hfe, List.isEmpty_nil, if_pos rfl]
  rfl

theorem C7_default_schema_witness :
    unusableAttrs (jobj []) = true
    ∧ extract_schema_from_json (jobj []) = .ok (tableNameOf (jobj []), entityKeyOf (jobj []),
        [(tableNameOf (jobj []), [(.str "key", "string"), (.str "operation", "operation")])]) :=
  ⟨by decide, C7_default_schema (jobj []) (by decide) (by decide) (by decide)⟩

/-- C8 is false as stated: schema extraction does fail on some parsed
JSON-compatible mappings.  For `{"attributes": [5]}` the loop calls
`attr.get('name', '')` on the integer `5`, raising `AttributeError` instead
of degrading to a default. -/
theorem C8_counterexample :
    extract_schema_from_json (jobj [("attributes", jarr [.num 5])])
      = .error .attributeError := by decide

/-- C8 (amended): extraction never fails on documents whose attribute
descriptors fit the spec's data model — when `attributes` is present as a
list, each element is a mapping whose `name`, `datatype` and
`logicalDatatype` values are strings when present — and whose table name is
hashable; on such documents absent or unmapped fields degrade to defaults.
It can raise (`AttributeError`/`TypeError`) on malformed descriptors, e.g.
non-mapping attribute entries. -/
theorem C8_extraction_total (j : JVal) (h : wfDoc j = true) :
    ∃ r, extract_schema_from_json j = .ok r := by
  rw [wfDoc, Bool.and_eq_true, Bool.and_eq_true] at h
  obtain ⟨⟨hdict, hh⟩, hattrs⟩ := h
  have hfe : ∃ fields, (if hasKey j "attributes" && (dictGet j "attributes" .null).isList
      then processAttrs (dictGet j "attributes" .null).toElems []
      else .ok []) = Except.ok fields := by
    by_cases hc : (hasKey j "attributes" && (dictGet j "attributes" .null).isList) = true
    · rw [if_pos hc]
      rw [if_pos hc] at hattrs
      obtain ⟨f', hf', -⟩ := processAttrs_keys _ [] (List.all_eq_true.mp hattrs)
      exact ⟨f', hf'⟩
    · exact ⟨[], if_neg hc⟩
  obtain ⟨fields, hfe⟩ := hfe
  refine ⟨(tableNameOf j, entityKeyOf j,
    [(tableNameOf j, pyInsert (if fields.isEmpty then [(JVal.str "key", "string")] else fields)
      (.str "operation") "operation")]), ?_⟩
  simp only [extract_schema_from_json, hdict, hh, if_true, hfe]

theorem C8_extraction_total_witness :
    wfDoc (jobj [("attributes", jarr [jobj [("name", .str "a"), ("datatype", .str "STRING")]])])
        = true
    ∧ ∃ r, extract_schema_from_json
        (jobj [("attributes", jarr [jobj [("name", .str "a"), ("datatype", .str "STRING")]])])
        = .ok r :=
  ⟨by decide,
   C8_extraction_total
     (jobj [("attributes", jarr [jobj [("name", .str "a"), ("datatype", .str "STRING")]])])
     (by decide)⟩

/-- C2 is false as stated: for a document whose single attribute is named
`"operation"`, the synthetic `operation` assignment at the end overwrites
the attribute's entry in place, so the field map has 1 entry, not
(distinct non-empty names) + 1 = 2. -/
theorem C2_counterexample :
    extract_schema_from_json (jobj [("attributes", jarr [jobj [("name", .str "operation")]])])
      = .ok (.str "unknown_table", .str "default_entity",
          [(.str "unknown_table", [(.str "operation", "operation")])])
    ∧ dedupFO (usableNames (jarr [jobj [("name", .str "operation")]]).toElems)
        = [.str "operation"]
    ∧ ([(JVal.str "operation", "operation")].length : Nat)
        ≠ [JVal.str "operation"].length + 1 := by
  exact ⟨by decide, by decide, by decide⟩

/-- C2 (amended): for every document whose `attributes` list consists of
well-formed descriptors, has at least one usable (truthy) name, and none of
whose usable names is `"operation"`, the extracted field map has exactly
(number of distinct non-empty attribute names) + 1 entries; its keys are
the distinct usable names in first-occurrence source order followed by the
single synthetic `operation` field, which therefore appears last and occurs
exactly once. -/
theorem C2_field_count (j : JVal) (hdict : j.isDict = true)
    (hh : (tableNameOf j).hashable = true)
    (hc : (hasKey j "attributes" && (dictGet j "attributes" .null).isList) = true)
    (hwf : ∀ a ∈ (dictGet j "attributes" .null).toElems, wfAttr a = true)
    (hne : usableNames (dictGet j "attributes" .null).toElems ≠ [])
    (hop : JVal.str "operation" ∉ usableNames (dictGet j "attributes" .null).toElems) :
    ∃ fields, extract_schema_from_json j
        = .ok (tableNameOf j, entityKeyOf j, [(tableNameOf j, fields)])
      ∧ fields.map Prod.fst
          = dedupFO (usableNames (dictGet j "attributes" .null).toElems) ++ [.str "operation"]
      ∧ fields.length
          = (dedupFO (usableNames (dictGet j "attributes" .null).toElems)).length + 1
      ∧ JVal.str "operation" ∉ dedupFO (usableNames (dictGet j "attributes" .null).toElems) := by
  obtain ⟨f', hf', hkeys⟩ := processAttrs_keys (dictGet j "attributes" .null).toElems [] hwf
  simp only [List.map_nil, List.nil_append] at hkeys
  rw [show newKeys (usableNames (dictGet j "attributes" .null).toElems) []
      = dedupFO (usableNames (dictGet j "attributes" .null).toElems) from rfl] at hkeys
  have hopd : JVal.str "operation"
      ∉ dedupFO (usableNames (dictGet j "attributes" .null).toElems) :=
    fun hmem => hop (mem_of_mem_newKeys _ _ hmem)
  have hfne : f' ≠ [] := by
    intro hnil
    rcases hu2 : usableNames (dictGet j "attributes" .null).toElems with _ | ⟨n, u⟩
    · exact hne hu2
    · rw [hnil, hu2] at hkeys
      simp [dedupFO, newKeys] at hkeys
  have hisEmpty : f'.isEmpty = false := by
    cases f' with
    | nil => exact absurd rfl hfne
    | cons a t => rfl
  have hkeys2 : (pyInsert f' (.str "operation") "operation").map Prod.fst
      = dedupFO (usableNames (dictGet j "attributes" .null).toElems) ++ [.str "operation"] := by
    rw [keys_pyInsert_not_mem _ _ _ (by rw [hkeys]; exact hopd), hkeys]
  refine ⟨pyInsert f' (.str "operation") "operation", ?_, hkeys2, ?_, hopd⟩
  · simp only [extract_schema_from_json, hdict, hh, if_true, hc, hf', hisEmpty,
      Bool.false_eq_true, if_false]
  · have hlen := congrArg List.length hkeys2
    simpa using hlen

theorem C2_field_count_witness :
    (∀ a ∈ (dictGet (jobj [("attributes", jarr [jobj [("name", .str "customer_id"),
        ("datatype", .str "INTEGER")], jobj [("name", .str "name"),
        ("datatype", .str "STRING")]])]) "attributes" .null).toElems, wfAttr a = true)
    ∧ ∃ fields, extract_schema_from_json (jobj [("attributes",
        jarr [jobj [("name", .str "customer_id"), ("datatype", .str "INTEGER")],
              jobj [("name", .str "name"), ("datatype", .str "STRING")]])])
        = .ok (.str "unknown_table", .str "default_entity", [(.str "unknown_table", fields)])
      ∧ fields.map Prod.fst
          = dedupFO (usableNames (dictGet (jobj [("attributes",
              jarr [jobj [("name", .str "customer_id"), ("datatype", .str "INTEGER")],
                    jobj [("name", .str "name"), ("datatype", .str "STRING")]])])
              "attributes" .null).toElems) ++ [.str "operation"]
      ∧ fields.length = (dedupFO (usableNames (dictGet (jobj [("attributes",
              jarr [jobj [("name", .str "customer_id"), ("datatype", .str "INTEGER")],
                    jobj [("name", .str "name"), ("datatype", .str "STRING")]])])
              "attributes" .null).toElems)).length + 1
      ∧ JVal.str "operation" ∉ dedupFO (usableNames (dictGet (jobj [("attributes",
              jarr [jobj [("name", .str "customer_id"), ("datatype", .str "INTEGER")],
                    jobj [("name", .str "name"), ("datatype", .str "STRING")]])])
              "attributes" .null).toElems) :=
  ⟨by decide,
   C2_field_count (jobj [("attributes",
       jarr [jobj [("name", .str "customer_id"), ("datatype", .str "INTEGER")],
             jobj [("name", .str "name"), ("datatype", .str "STRING")]])])
     (by decide) (by decide) (by decide) (by decide) (by decide) (by decide)⟩

/-- C3: for every schema (table names and field names strings, table names
distinct, as every Python dict schema is) and every count `N`, synthesis
followed by materialization produces per table exactly `N` transaction
envelopes whose 1-based file indices are exactly `1..N` with no gaps or
repeats, and `N = 0` produces no records and no files for that table. -/
theorem C3_per_table_count (schema : List (JVal × List (JVal × String))) (count : Nat)
    (base : FsPath) (sk ek : String) (now : Nat) (g : RNG) (t : String)
    (attrs : List (JVal × String))
    (hwf : wfSchema schema = true)
    (hnd : (schema.map Prod.fst).Nodup)
    (hmem : (JVal.str t, attrs) ∈ schema) :
    ∃ es g', generate_random_transaction schema count base sk ek now g = (.ok es, g') ∧
      (es.filter fun e => e.table = t).length = count ∧
      (es.filter fun e => e.table = t).map FileEntry.fileIndex
        = (List.range count).map (· + 1) ∧
      (count = 0 → es.filter (fun e => e.table = t) = []) := by
  obtain ⟨es, g', hes, -, hper⟩ := generate_spec schema count base sk ek now g hwf
  obtain ⟨hidx, -⟩ := hper t attrs hnd hmem
  refine ⟨es, g', hes, ?_, hidx, ?_⟩
  · have hl := congrArg List.length hidx
    simpa using hl
  · intro h0
    subst h0
    have hl := congrArg List.length hidx
    have hl0 : (es.filter fun e => e.table = t).length = 0 := by simpa using hl
    exact List.eq_nil_of_length_eq_zero hl0

theorem C3_per_table_count_witness :
    wfSchema [(JVal.str "T", [(JVal.str "a", "string")])] = true
    ∧ ∃ es g', generate_random_transaction [(JVal.str "T", [(JVal.str "a", "string")])] 2
        ⟨true, ["tmp", "data"]⟩ "T" "E" 0 ⟨fun _ => 0, 0⟩ = (.ok es, g') ∧
      (es.filter fun e => e.table = "T").length = 2 ∧
      (es.filter fun e => e.table = "T").map FileEntry.fileIndex
        = (List.range 2).map (· + 1) ∧
      (2 = 0 → es.filter (fun e => e.table = "T") = []) :=
  ⟨by decide,
   C3_per_table_count [(JVal.str "T", [(JVal.str "a", "string")])] 2
     ⟨true, ["tmp", "data"]⟩ "T" "E" 0 ⟨fun _ => 0, 0⟩ "T" [(JVal.str "a", "string")]
     (by decide) (by decide) (by decide)⟩

/-- C6: for every table whose field map contains an integer-typed field with
lower-cased name `customer_id`, the generated values of that field across
the table's `N` records are the stringified sequence `1, 2, …, N` in
generation order (`str(i + 1)` for 0-based record index `i`), independent of
the random stream. -/
theorem C6_customer_id_sequential (schema : List (JVal × List (JVal × String))) (count : Nat)
    (base : FsPath) (sk ek : String) (now : Nat) (g : RNG) (t name : String)
    (attrs : List (JVal × String))
    (hwf : wfSchema schema = true)
    (hnd : (schema.map Prod.fst).Nodup)
    (hmem : (JVal.str t, attrs) ∈ schema)
    (hnda : (attrs.map Prod.fst).Nodup)
    (hmema : (JVal.str name, "integer") ∈ attrs)
    (hlow : strLower name = "customer_id") :
    ∃ es g', generate_random_transaction schema count base sk ek now g = (.ok es, g') ∧
      (es.filter fun e => e.table = t).map (fun e => alookup e.envelope.record (.str name))
        = (List.range count).map (fun k => some (.str (toString (k + 1)))) := by
  obtain ⟨es, g', hes, -, hper⟩ := generate_spec schema count base sk ek now g hwf
  obtain ⟨-, hcust⟩ := hper t attrs hnd hmem
  exact ⟨es, g', hes, hcust name hnda hmema hlow⟩

theorem C6_customer_id_sequential_witness :
    strLower "customer_id" = "customer_id"
    ∧ ∃ es g', generate_random_transaction
        [(JVal.str "Cust", [(JVal.str "customer_id", "integer"), (JVal.str "name", "string")])]
        2 ⟨true, ["tmp", "data"]⟩ "Cust" "E1" 0 ⟨fun _ => 0, 0⟩ = (.ok es, g') ∧
      (es.filter fun e => e.table = "Cust").map
          (fun e => alookup e.envelope.record (.str "customer_id"))
        = (List.range 2).map (fun k => some (.str (toString (k + 1)))) :=
  ⟨by decide,
   C6_customer_id_sequential
     [(JVal.str "Cust", [(JVal.str "customer_id", "integer"), (JVal.str "name", "string")])]
     2 ⟨true, ["tmp", "data"]⟩ "Cust" "E1" 0 ⟨fun _ => 0, 0⟩ "Cust" "customer_id"
     [(JVal.str "customer_id", "integer"), (JVal.str "name", "string")]
     (by decide) (by decide) (by decide) (by decide) (by decide) (by decide)⟩

/-- C4 is false as stated: archiving is not relative to the output root used
during materialization.  A single-document request materializes under
`/tmp/data` (the output root, `output_dir`), yet `create_zip_archive`
computes `os.path.relpath(file, 'data')` against the literal relative path
`'data'`; with working directory `/app` the stored entry name is
`../../tmp/data/T/T_default_entity_file1.json`, not the root-relative
`T/T_default_entity_file1.json` the claim requires. -/
theorem C4_counterexample :
    ((generateHandler (some ⟨"s.json", [], .ok (jobj [("schemaKey", .str "T")])⟩) 1 0 ["app"]
        ⟨fun _ => 0, 0⟩).map (fun r => (r.files.map FileEntry.path,
          (r.archive.getD []).map Prod.fst)))
      = .ok ([⟨true, ["tmp", "data", "T", "T_default_entity_file1.json"]⟩],
             [["..", "..", "tmp", "data", "T", "T_default_entity_file1.json"]])
    ∧ relpath ["app"] ⟨true, ["tmp", "data", "T", "T_default_entity_file1.json"]⟩ output_dir
        = ["T", "T_default_entity_file1.json"]
    ∧ ["..", "..", "tmp", "data", "T", "T_default_entity_file1.json"]
        ≠ ["T", "T_default_entity_file1.json"] := by
  exact ⟨by decide, by decide, by decide⟩

/-- C4 (amended): the archive stores each file under
`os.path.relpath(file, 'data')` — a path relative to the literal `'data'`
resolved against the process working directory, not to the materialization
output root; consequently the `<tableName>/<filename>` structure is
preserved with the root stripped exactly when the materialization root is
the relative path `data` itself. -/
theorem C4_archive_paths (files : List FileEntry) (cwd : List String) :
    (create_zip_archive files cwd).map Prod.fst
      = files.map (fun f => relpath cwd f.path dataRoot)
    ∧ ∀ rest : List String, relpath cwd ⟨false, "data" :: rest⟩ dataRoot = rest := by
  constructor
  · simp [create_zip_archive]
  · exact relpath_data_strip cwd

/-- C9: in a container (zip) request, a document that fails to process — for
example one that is malformed JSON — is caught and skipped without aborting
its siblings: the run is identical to the run without that document, every
other document still produces its files, the final archive contains exactly
those outputs, and no exception surfaces to the caller (the handler returns
a response). -/
theorem C9_malformed_doc_skipped (pre post : List (Except Unit JVal)) (fname : String)
    (single : Except Unit JVal) (count now : Nat) (cwd : List String) (g : RNG)
    (hz : strEndsWith (strLower fname) ".zip" = true) (hne : fname ≠ "") :
    generateHandler (some ⟨fname, pre ++ Except.error () :: post, single⟩) count now cwd g
      = generateHandler (some ⟨fname, pre ++ post, single⟩) count now cwd g
    ∧ ∃ r, generateHandler (some ⟨fname, pre ++ post, single⟩) count now cwd g = .ok r
        ∧ r.archive = some (create_zip_archive r.files cwd)
        ∧ r.files = (zipFold count now (pre ++ post) [] g).1 := by
  constructor
  · rw [generateHandler_zip _ _ _ _ _ _ _ hz hne, generateHandler_zip _ _ _ _ _ _ _ hz hne,
      zipFold_skip_error]
  · rw [generateHandler_zip _ _ _ _ _ _ _ hz hne]
    exact ⟨_, rfl, rfl, rfl⟩

theorem C9_malformed_doc_skipped_witness :
    generateHandler (some ⟨"c.zip",
        [.ok (jobj [("schemaKey", .str "A")]), .error (), .ok (jobj [("name", .str "B")])],
        .ok .null⟩) 1 0 [] ⟨fun _ => 0, 0⟩
      = generateHandler (some ⟨"c.zip",
          [.ok (jobj [("schemaKey", .str "A")]), .ok (jobj [("name", .str "B")])],
          .ok .null⟩) 1 0 [] ⟨fun _ => 0, 0⟩ :=
  (C9_malformed_doc_skipped [.ok (jobj [("schemaKey", .str "A")])]
    [.ok (jobj [("name", .str "B")])] "c.zip" (.ok .null) 1 0 [] ⟨fun _ => 0, 0⟩
    (by decide) (by decide)).1

/-- C10: the name `shutil` is referenced by the handler's cleanup step but
never imported, so every request that completes archive creation raises a
`NameError` that lands in the generic `except Exception` branch: the caller
receives an error response, and the success response with the file count and
download link is never returned. -/
theorem C10_shutil_name_error (upload : Option SchemaUpload) (count now : Nat)
    (cwd : List String) (g : RNG)
    (h : reachesArchive upload count now g = true) :
    ("shutil" ∉ imported_modules)
    ∧ ∃ r, generateHandler upload count now cwd g = .ok r
        ∧ r.response = .errorJson "name 'shutil' is not defined"
        ∧ ∀ m l, r.response ≠ .success m l := by
  refine ⟨by decide, ?_⟩
  match upload with
  | none => simp [reachesArchive] at h
  | some f =>
    simp only [reachesArchive] at h
    rw [Bool.and_eq_true] at h
    have hfne : ¬f.filename = "" := by simpa using h.1
    rcases htb : tryBody f count now g with ⟨r0, g'⟩
    rw [htb] at h
    cases r0 with
    | error e => simp at h
    | ok fs =>
      refine ⟨⟨.errorJson "name 'shutil' is not defined", fs,
        some (create_zip_archive fs cwd)⟩, ?_, rfl, ?_⟩
      · simp only [generateHandler, if_neg hfne, htb, shutil_not_imported,
          Bool.false_eq_true, if_false, PyErr.message]
      · intro m l hc
        exact Response.noConfusion hc

theorem C10_shutil_name_error_witness :
    reachesArchive (some ⟨"a.zip", [], .ok .null⟩) 0 0 ⟨fun _ => 0, 0⟩ = true
    ∧ (("shutil" ∉ imported_modules)
       ∧ ∃ r, generateHandler (some ⟨"a.zip", [], .ok .null⟩) 0 0 [] ⟨fun _ => 0, 0⟩ = .ok r
           ∧ r.response = .errorJson "name 'shutil' is not defined"
           ∧ ∀ m l, r.response ≠ .success m l) :=
  ⟨by decide,
   C10_shutil_name_error (some ⟨"a.zip", [], .ok .null⟩) 0 0 [] ⟨fun _ => 0, 0⟩ (by decide)⟩
